import Mathlib

/-!
# Verification of snapd's desktop-entry parser (`desktop/desktopentry/desktopentry.go`)

A shallow embedding of the `desktopentry` Go package: the `DesktopEntry` /
`Action` data model, the line-oriented `parse` function, `ShouldAutostart`,
and the `Exec`-expansion entry points.  The input stream is modelled as the
list of lines delivered by `bufio.Scanner`.  Go strings are modelled as Lean
`String`s; the character-level operations (`strings.TrimSpace`,
`strings.SplitN`, `strings.FieldsFunc`, …) are modelled over `List Char`,
which coincides with Go's byte-level behaviour on the ASCII delimiters used
here.  Go's `nil` vs non-`nil` slices and maps are modelled with `Option`.
-/

namespace DesktopEntrySpec

/-- Characters treated as space by Go's `strings.TrimSpace` in the ASCII and
Latin-1 range (`unicode.IsSpace`): `\t \n \v \f \r ' '` plus U+0085, U+00A0. -/
def goIsSpace (c : Char) : Bool :=
  c == ' ' || c == '\t' || c == '\n' || c == '\x0b' || c == '\x0c' || c == '\r' ||
  c == '\u0085' || c == ' '

/-- `strings.TrimSpace` on the character list: drop spaces on both ends. -/
def trimSpaceL (cs : List Char) : List Char :=
  ((cs.dropWhile goIsSpace).reverse.dropWhile goIsSpace).reverse

/-- The cutset `"\t\n\v\f\r "` used by `parse` to trim around the `=` sign. -/
def cutsetChars : List Char := ['\t', '\n', '\x0b', '\x0c', '\r', ' ']

/-- `strings.TrimRight(s, "\t\n\v\f\r ")` on the character list. -/
def trimRightCutset (cs : List Char) : List Char :=
  (cs.reverse.dropWhile (fun c => cutsetChars.contains c)).reverse

/-- `strings.TrimLeft(s, "\t\n\v\f\r ")` on the character list. -/
def trimLeftCutset (cs : List Char) : List Char :=
  cs.dropWhile (fun c => cutsetChars.contains c)

/-- `strings.SplitN(line, "=", 2)`: split at the first `=`.  Returns `none`
when the line contains no `=` (Go then yields a 1-element slice, which
`parse` rejects as badly formed). -/
def splitEq : List Char → Option (List Char × List Char)
  | [] => none
  | c :: cs =>
    if c = '=' then some ([], cs)
    else match splitEq cs with
         | none => none
         | some (k, v) => some (c :: k, v)

/-- Accumulator loop of Go's `strings.FieldsFunc`: maximal runs of
characters not satisfying `p`, empty fields discarded.  `acc` holds the
current field reversed. -/
def fieldsFuncAux (p : Char → Bool) : List Char → List Char → List (List Char)
  | acc, [] => if acc.isEmpty then [] else [acc.reverse]
  | acc, c :: cs =>
    if p c then
      if acc.isEmpty then fieldsFuncAux p [] cs
      else acc.reverse :: fieldsFuncAux p [] cs
    else fieldsFuncAux p (c :: acc) cs

/-- `splitStringList` from the source: `strings.FieldsFunc(value, r == ';')`. -/
def splitStringList (value : String) : List String :=
  (fieldsFuncAux (fun c => c == ';') [] value.data).map (fun cs => String.mk cs)

/-- Modelled from the spec: `strutil.ListContains`, the out-of-scope
"does list contain string" helper utility (§2): membership in the list. -/
def listContains (l : List String) (s : String) : Bool :=
  l.contains s

/-- `Action` — one `[Desktop Action X]` group. -/
structure Action where
  Name : String
  Icon : String
  Exec : String
deriving Repr, DecidableEq

/-- `DesktopEntry` — one parsed `.desktop` file.  Go's `nil` vs non-`nil`
slices (`OnlyShowIn`, `NotShownIn`) and the `nil` vs allocated `Actions`
map are modelled by `Option`; the map is an association list (insertion
order; lookups are by key so ordering is immaterial). -/
structure DesktopEntry where
  Filename : String
  Name : String
  Icon : String
  Exec : String
  Hidden : Bool
  OnlyShowIn : Option (List String)
  NotShownIn : Option (List String)
  GnomeAutostartEnabled : Bool
  Actions : Option (List (String × Action))
deriving Repr, DecidableEq

/-- `de.Actions[action]` — lookup in a possibly-`nil` Go map (a `nil` map
yields the zero value, here `none`). -/
def lookupAction (acts : Option (List (String × Action))) (a : String) : Option Action :=
  match acts with
  | none => none
  | some l => (l.find? (fun p => p.1 == a)).map (fun p => p.2)

/-- `groupState` from the source; the action variant also records which
action the Go code's `currentAction` pointer refers to. -/
inductive GroupState where
  | unknownGroup
  | desktopEntryGroup
  | desktopActionGroup (action : String)
deriving Repr, DecidableEq

/-- The parse errors produced by `parse` (`fmt.Errorf`), by kind. -/
inductive ParseError where
  | multipleDesktopEntryGroups
  | unknownAction (action : String)
  | multipleActionGroups (line : List Char)
  | badlyFormed
deriving Repr, DecidableEq

/-- The local state of `parse`'s scanning loop. -/
structure ParseState where
  de : DesktopEntry
  currentGroup : GroupState
  seenDesktopEntryGroup : Bool
  actions : List String
deriving Repr, DecidableEq

/-- The entry as initialized at the top of `parse`: zero values except
`Filename` and `GnomeAutostartEnabled := true`. -/
def initEntry (filename : String) : DesktopEntry :=
  { Filename := filename
    Name := ""
    Icon := ""
    Exec := ""
    Hidden := false
    OnlyShowIn := none
    NotShownIn := none
    GnomeAutostartEnabled := true
    Actions := none }

/-- The loop state at the top of `parse`. -/
def initState (filename : String) : ParseState :=
  { de := initEntry filename
    currentGroup := .unknownGroup
    seenDesktopEntryGroup := false
    actions := [] }

/-- Assigning `currentAction.Name/Icon/Exec = value` inside a
`[Desktop Action]` group; unrecognized keys are ignored. -/
def updateActionField (act : Action) (key value : String) : Action :=
  if key = "Name" then { act with Name := value }
  else if key = "Icon" then { act with Icon := value }
  else if key = "Exec" then { act with Exec := value }
  else act

/-- Writing through the `currentAction` pointer stored in `de.Actions[a]`. -/
def updateActions (acts : Option (List (String × Action))) (a key value : String) :
    Option (List (String × Action)) :=
  match acts with
  | none => none
  | some l => some (l.map (fun p => if p.1 = a then (p.1, updateActionField p.2 key value) else p))

/-- Assigning `de.<field> = value` for a recognized key of the
`[Desktop Entry]` group (the `Actions` key updates the loop state instead). -/
def updateEntryField (de : DesktopEntry) (key value : String) : DesktopEntry :=
  if key = "Name" then { de with Name := value }
  else if key = "Icon" then { de with Icon := value }
  else if key = "Exec" then { de with Exec := value }
  else if key = "Hidden" then { de with Hidden := value == "true" }
  else if key = "OnlyShowIn" then { de with OnlyShowIn := some (splitStringList value) }
  else if key = "NotShownIn" then { de with NotShownIn := some (splitStringList value) }
  else if key = "X-GNOME-Autostart-enabled" then
    { de with GnomeAutostartEnabled := value == "true" }
  else de

/-- One iteration of `parse`'s scanning loop on a raw line. -/
def processLine (st : ParseState) (raw : String) : Except ParseError ParseState :=
  let line := trimSpaceL raw.data
  -- Ignore empty lines and comments
  if line = [] then .ok st
  else if ['#'].isPrefixOf line then .ok st
  -- Start of a new group
  else if ['['].isPrefixOf line then
    if line = "[Desktop Entry]".data then
      if st.seenDesktopEntryGroup then .error .multipleDesktopEntryGroups
      else .ok { st with seenDesktopEntryGroup := true, currentGroup := .desktopEntryGroup }
    else if "[Desktop Action ".data.isPrefixOf line ∧ line.getLast? = some ']' then
      let action := String.mk ((line.drop "[Desktop Action ".data.length).dropLast)
      if ¬ listContains st.actions action then .error (.unknownAction action)
      else if (lookupAction st.de.Actions action).isSome then .error (.multipleActionGroups line)
      else
        .ok { st with
              currentGroup := .desktopActionGroup action
              de := { st.de with
                      Actions := some ((st.de.Actions.getD []) ++ [(action, ⟨"", "", ""⟩)]) } }
    else
      -- Ignore other groups
      .ok { st with currentGroup := .unknownGroup }
  else
    match splitEq line with
    | none => .error .badlyFormed
    | some (k, v) =>
      -- Trim whitespace around the equals sign
      let key := String.mk (trimRightCutset k)
      let value := String.mk (trimLeftCutset v)
      match st.currentGroup with
      | .desktopEntryGroup =>
        if key = "Actions" then .ok { st with actions := splitStringList value }
        else .ok { st with de := updateEntryField st.de key value }
      | .desktopActionGroup a =>
        .ok { st with de := { st.de with Actions := updateActions st.de.Actions a key value } }
      | .unknownGroup => .ok st

/-- The scanning loop: fold `processLine` over the stream's lines. -/
def runLines (st : ParseState) : List String → Except ParseError ParseState
  | [] => .ok st
  | l :: ls =>
    match processLine st l with
    | .error e => .error e
    | .ok st' => runLines st' ls

/-- `parse(filename, r)`: run the loop from the initial state and return the
accumulated entry. -/
def parse (filename : String) (lines : List String) : Except ParseError DesktopEntry :=
  match runLines (initState filename) lines with
  | .error e => .error e
  | .ok st => .ok st.de

/-- `isOneOfIn(of, other)` from the source: some element of `of` is
contained in `other`. -/
def isOneOfIn (of other : List String) : Bool :=
  of.any (fun one => listContains other one)

/-- `ShouldAutostart` from the source, with the two `Option` fields making
Go's `!= nil` tests explicit. -/
def ShouldAutostart (de : DesktopEntry) (currentDesktop : List String) : Bool :=
  if de.Hidden then false
  else if !de.GnomeAutostartEnabled && listContains currentDesktop "GNOME" then false
  else if (match de.OnlyShowIn with
           | some l => !isOneOfIn currentDesktop l
           | none => false) then false
  else if (match de.NotShownIn with
           | some l => isOneOfIn currentDesktop l
           | none => false) then false
  else true

/-- Written from the specification's wording of the autostart decision
(§4.2): the four rules as Props, checked in the spec's order, the first
matching rule short-circuiting to `false`.  To be compared with
`ShouldAutostart`, which is translated from the source. -/
def shouldAutostartSpec (de : DesktopEntry) (currentDesktop : List String) : Bool :=
  if de.Hidden = true then false
  else if de.GnomeAutostartEnabled = false ∧ "GNOME" ∈ currentDesktop then false
  else if de.OnlyShowIn ≠ none ∧ ∀ x ∈ currentDesktop, x ∉ de.OnlyShowIn.getD [] then false
  else if de.NotShownIn ≠ none ∧ ∃ x ∈ currentDesktop, x ∈ de.NotShownIn.getD [] then false
  else true

/-- Written from the amended wording of the no-entry-group claim: a line
the parser passes over without changing state — blank, comment, a group
header other than `[Desktop Entry]` and other than the `[Desktop Action X]`
pattern, or a non-header line containing `=` (discarded outside recognized
groups). -/
def inertLine (l : String) : Prop :=
  trimSpaceL l.data = [] ∨
  ['#'].isPrefixOf (trimSpaceL l.data) = true ∨
  (['['].isPrefixOf (trimSpaceL l.data) = true ∧
   trimSpaceL l.data ≠ "[Desktop Entry]".data ∧
   ¬("[Desktop Action ".data.isPrefixOf (trimSpaceL l.data) = true ∧
     (trimSpaceL l.data).getLast? = some ']')) ∨
  (¬ ['['].isPrefixOf (trimSpaceL l.data) = true ∧ '=' ∈ trimSpaceL l.data)

instance (l : String) : Decidable (inertLine l) := by
  unfold inertLine
  infer_instance

/-- Modelled from the spec: the tokenizer of the exec-expansion routine
(§4.3), which is not part of the excerpted source.  Shell-like quoting:
unquoted whitespace separates tokens, double-quoted segments preserve
whitespace, a backslash inside quotes escapes the next character; an
unterminated quote or trailing escape fails.  `inQ` is the in-quotes flag,
`esc` whether the previous character was an unconsumed escape, `started`
whether a token is open, `acc` the current token reversed. -/
def tokenizeAux (inQ esc started : Bool) (acc : List Char) : List Char → Option (List String)
  | [] =>
    if inQ ∨ esc then none
    else if started then some [String.mk acc.reverse] else some []
  | c :: cs =>
    if esc then tokenizeAux true false true (c :: acc) cs
    else if inQ then
      if c = '"' then tokenizeAux false false true acc cs
      else if c = '\\' then tokenizeAux true true true acc cs
      else tokenizeAux true false true (c :: acc) cs
    else
      if c = ' ' ∨ c = '\t' then
        if started then
          (tokenizeAux false false false [] cs).map (fun ts => String.mk acc.reverse :: ts)
        else tokenizeAux false false false [] cs
      else if c = '"' then tokenizeAux true false true acc cs
      else tokenizeAux false false true (c :: acc) cs

/-- Modelled from the spec: the treatment of `%`-escapes in an ordinary
token (§4.3): `%%` becomes a literal `%`, any other `%x` code is removed. -/
def unpercentChars : List Char → List Char
  | [] => []
  | ['%'] => []
  | '%' :: '%' :: cs => '%' :: unpercentChars cs
  | '%' :: _ :: cs => unpercentChars cs
  | c :: cs => c :: unpercentChars cs

/-- Modelled from the spec: field-code substitution over the token list
(§4.3).  `rem` is the not-yet-consumed tail of the caller-supplied URI
list: `%f`/`%u` consume one URI per occurrence, `%F`/`%U` splice in the
entire original list `uris`, each URI its own token; `%i` expands to
`--icon <Icon>` when `Icon` is non-empty, `%c` to `Name`, `%k` to
`Filename`; other tokens pass through with `%`-escapes resolved. -/
def expandTokens (de : DesktopEntry) (uris : List String) : List String → List String → List String
  | _, [] => []
  | rem, t :: ts =>
    if t = "%F" ∨ t = "%U" then uris ++ expandTokens de uris rem ts
    else if t = "%f" ∨ t = "%u" then
      match rem with
      | [] => expandTokens de uris [] ts
      | u :: rem' => u :: expandTokens de uris rem' ts
    else if t = "%i" then
      (if de.Icon = "" then [] else ["--icon", de.Icon]) ++ expandTokens de uris rem ts
    else if t = "%c" then de.Name :: expandTokens de uris rem ts
    else if t = "%k" then de.Filename :: expandTokens de uris rem ts
    else String.mk (unpercentChars t.data) :: expandTokens de uris rem ts

/-- Modelled from the spec: `expandExec(de, exec, uris)` (§4.3), the routine
both `ExpandExec` and `ExpandActionExec` delegate to: tokenize the exec
line, then substitute field codes token by token. -/
def expandExec (de : DesktopEntry) (exec : String) (uris : List String) :
    Except String (List String) :=
  match tokenizeAux false false false [] exec.data with
  | none => .error ("desktop file " ++ de.Filename ++ " has malformed exec line")
  | some ts => .ok (expandTokens de uris uris ts)

/-- `ExpandExec` from the source: error on an empty `Exec`, else delegate. -/
def ExpandExec (de : DesktopEntry) (uris : List String) : Except String (List String) :=
  if de.Exec = "" then .error ("desktop file " ++ de.Filename ++ " has no Exec line")
  else expandExec de de.Exec uris

/-- `ExpandActionExec` from the source: error when the action is absent or
its `Exec` is empty, else delegate to `expandExec` on the action's `Exec`. -/
def ExpandActionExec (de : DesktopEntry) (action : String) (uris : List String) :
    Except String (List String) :=
  match lookupAction de.Actions action with
  | none => .error ("desktop file " ++ de.Filename ++ " does not have action " ++ action)
  | some act =>
    if act.Exec = "" then
      .error ("desktop file " ++ de.Filename ++ " action " ++ action ++ " has no Exec line")
    else expandExec de act.Exec uris

/-! ## Helper lemmas -/

lemma modifyHead_nil_append (l : List (List Char)) :
    l.modifyHead (fun x => [] ++ x) = l := by
  cases l <;> simp

lemma modifyHead_id_fun (l : List (List Char)) :
    l.modifyHead (fun x => x) = l := by
  cases l <;> simp

lemma fieldsFuncAux_eq_splitOnP (p : Char → Bool) (cs : List Char) : ∀ acc,
    fieldsFuncAux p acc cs =
      ((cs.splitOnP p).modifyHead (fun x => acc.reverse ++ x)).filter (fun f => f ≠ []) := by
  induction cs with
  | nil =>
    intro acc
    simp only [fieldsFuncAux, List.splitOnP_nil, List.modifyHead, List.append_nil]
    rcases acc with _ | ⟨a, acc⟩ <;> simp
  | cons c cs ih =>
    intro acc
    simp only [fieldsFuncAux, List.splitOnP_cons]
    by_cases hp : p c
    · simp only [hp, if_true]
      rcases acc with _ | ⟨a, acc⟩
      · simp only [ih, modifyHead_nil_append, List.reverse_nil]
        simp [List.filter_cons]
      · simp only [List.isEmpty_cons, if_neg Bool.false_ne_true, List.modifyHead,
          List.filter_cons, ih, modifyHead_nil_append]
        cases h : List.splitOnP p cs
        · exact absurd h (List.splitOnP_ne_nil _ _)
        · simp [List.filter_cons, List.reverse_eq_nil_iff]
    · simp only [hp, if_false, Bool.false_eq_true, ih (c :: acc), List.modifyHead_modifyHead]
      congr 2
      funext x
      simp [Function.comp]


lemma runLines_append (st : ParseState) (xs ys : List String) :
    runLines st (xs ++ ys) =
      match runLines st xs with
      | .error e => .error e
      | .ok st' => runLines st' ys := by
  induction xs generalizing st with
  | nil => simp [runLines]
  | cons x xs ih =>
    simp only [List.cons_append, runLines]
    cases processLine st x <;> simp [ih]

lemma processLine_seen (st : ParseState) (l : String) (st' : ParseState)
    (h : processLine st l = .ok st') :
    st'.seenDesktopEntryGroup = st.seenDesktopEntryGroup ∨
      st'.seenDesktopEntryGroup = true := by
  simp only [processLine] at h
  repeat' split at h
  all_goals cases h
  all_goals simp

lemma runLines_seen_mono (ls : List String) : ∀ st st', runLines st ls = .ok st' →
    st.seenDesktopEntryGroup = true → st'.seenDesktopEntryGroup = true := by
  induction ls with
  | nil => intro st st' h hs; cases h; exact hs
  | cons l ls ih =>
    intro st st' h hs
    simp only [runLines] at h
    cases hp : processLine st l with
    | error e => rw [hp] at h; cases h
    | ok st1 =>
      rw [hp] at h
      rcases processLine_seen st l st1 hp with h1 | h1
      · exact ih st1 st' h (h1.trans hs)
      · exact ih st1 st' h h1

lemma processLine_de_header (st : ParseState) (l : String)
    (h : trimSpaceL l.data = "[Desktop Entry]".data) :
    processLine st l =
      if st.seenDesktopEntryGroup then .error .multipleDesktopEntryGroups
      else .ok { st with seenDesktopEntryGroup := true,
                         currentGroup := .desktopEntryGroup } := by
  simp only [processLine, h]
  rw [if_neg (by decide), if_neg (by decide), if_pos (by decide), if_pos trivial]

lemma runLines_after_seen (l2 : String) (post : List String)
    (h2 : trimSpaceL l2.data = "[Desktop Entry]".data) :
    ∀ (mid : List String) (st : ParseState), st.seenDesktopEntryGroup = true →
      ∃ e, runLines st (mid ++ l2 :: post) = .error e := by
  intro mid
  induction mid with
  | nil =>
    intro st hs
    refine ⟨.multipleDesktopEntryGroups, ?_⟩
    simp [runLines, processLine_de_header st l2 h2, hs]
  | cons m mid ih =>
    intro st hs
    simp only [List.cons_append, runLines]
    cases hp : processLine st m with
    | error e => exact ⟨e, rfl⟩
    | ok st1 =>
      have hs1 : st1.seenDesktopEntryGroup = true := by
        rcases processLine_seen st m st1 hp with h1 | h1
        · exact h1.trans hs
        · exact h1
      exact ih st1 hs1

/-! ## Claim theorems -/

/-- C6: the list-splitting function used for `OnlyShowIn`, `NotShownIn` and
`Actions` splits on `';'` and discards all empty fields — it equals the
naive split followed by removal of every empty field, so consecutive,
leading and trailing delimiters contribute no elements; in particular
`"A;;B;"` yields exactly `["A", "B"]`. -/
theorem claim_C6 (value : String) :
    splitStringList value =
      ((value.data.splitOn ';').filter (fun f => f ≠ [])).map (fun cs => String.mk cs) ∧
    splitStringList "A;;B;" = ["A", "B"] := by
  constructor
  · unfold splitStringList
    rw [fieldsFuncAux_eq_splitOnP]
    simp only [List.reverse_nil, modifyHead_nil_append, List.splitOn]
  · rfl

/-- C2: `ExpandExec` fails on an empty `Exec` and otherwise delegates to
`expandExec` on it; `ExpandActionExec` fails when the action is not a key
of `Actions`, fails when the action's `Exec` is empty, and otherwise
delegates to the same `expandExec` on the action's `Exec`. -/
theorem claim_C2 (de : DesktopEntry) (a : String) (uris : List String) :
    (de.Exec = "" → ExpandExec de uris =
      .error ("desktop file " ++ de.Filename ++ " has no Exec line")) ∧
    (de.Exec ≠ "" → ExpandExec de uris = expandExec de de.Exec uris) ∧
    (lookupAction de.Actions a = none → ExpandActionExec de a uris =
      .error ("desktop file " ++ de.Filename ++ " does not have action " ++ a)) ∧
    (∀ act, lookupAction de.Actions a = some act → act.Exec = "" →
      ExpandActionExec de a uris =
        .error ("desktop file " ++ de.Filename ++ " action " ++ a ++ " has no Exec line")) ∧
    (∀ act, lookupAction de.Actions a = some act → act.Exec ≠ "" →
      ExpandActionExec de a uris = expandExec de act.Exec uris) := by
  refine ⟨?_, ?_, ?_, ?_, ?_⟩
  · intro h; simp [ExpandExec, h]
  · intro h; simp [ExpandExec, h]
  · intro h; simp [ExpandActionExec, h]
  · intro act h he; simp [ExpandActionExec, h, he]
  · intro act h he; simp [ExpandActionExec, h, he]

/-- Witness for C2 at concrete entries: an empty `Exec`, a non-empty
`Exec`, a missing action, an action with empty `Exec`, and an action with
a non-empty `Exec`. -/
theorem claim_C2_witness :
    ExpandExec (initEntry "f") [] =
      .error ("desktop file " ++ (initEntry "f").Filename ++ " has no Exec line") ∧
    ExpandExec { initEntry "f" with Exec := "app" } [] =
      expandExec { initEntry "f" with Exec := "app" } "app" [] ∧
    ExpandActionExec (initEntry "f") "a" [] =
      .error ("desktop file " ++ (initEntry "f").Filename ++ " does not have action " ++ "a") ∧
    ExpandActionExec { initEntry "f" with Actions := some [("a", ⟨"", "", ""⟩)] } "a" [] =
      .error ("desktop file " ++ (initEntry "f").Filename ++ " action " ++ "a" ++
        " has no Exec line") ∧
    ExpandActionExec { initEntry "f" with Actions := some [("a", ⟨"", "", "run"⟩)] } "a" [] =
      expandExec { initEntry "f" with Actions := some [("a", ⟨"", "", "run"⟩)] } "run" [] :=
  ⟨(claim_C2 (initEntry "f") "a" []).1 rfl,
   (claim_C2 { initEntry "f" with Exec := "app" } "a" []).2.1 (by decide),
   (claim_C2 (initEntry "f") "a" []).2.2.1 rfl,
   (claim_C2 { initEntry "f" with Actions := some [("a", ⟨"", "", ""⟩)] } "a" []).2.2.2.1
     ⟨"", "", ""⟩ rfl rfl,
   (claim_C2 { initEntry "f" with Actions := some [("a", ⟨"", "", "run"⟩)] } "a" []).2.2.2.2
     ⟨"", "", "run"⟩ rfl (by decide)⟩

/-- C9: in the token list produced from the `Exec` value, each occurrence
of `%F` or `%U` contributes every caller-supplied URI as its own separate
argument token, while each occurrence of `%f` or `%u` consumes exactly one
URI from the remaining list; end to end, `"app %F x"` with two URIs yields
a four-element argument vector. -/
theorem claim_C9 (de : DesktopEntry) (uris rem ts : List String) (u : String) :
    expandTokens de uris rem ("%F" :: ts) = uris ++ expandTokens de uris rem ts ∧
    expandTokens de uris rem ("%U" :: ts) = uris ++ expandTokens de uris rem ts ∧
    expandTokens de uris (u :: rem) ("%f" :: ts) = u :: expandTokens de uris rem ts ∧
    expandTokens de uris (u :: rem) ("%u" :: ts) = u :: expandTokens de uris rem ts ∧
    expandExec (initEntry "f") "app %F x" ["u1", "u2"] =
      .ok ["app", "u1", "u2", "x"] := by
  refine ⟨?_, ?_, ?_, ?_, by rfl⟩ <;> simp [expandTokens]

/-- C7: absent and present-but-empty `OnlyShowIn` are distinguished and
observable: a `[Desktop Entry]` group without the key leaves the field
`none` and `ShouldAutostart` unrestricted (true for every desktop), while
the key with value `";"` yields `some []`, making `ShouldAutostart` false
for every desktop. -/
theorem claim_C7 :
    parse "f" ["[Desktop Entry]"] = .ok (initEntry "f") ∧
    (initEntry "f").OnlyShowIn = none ∧
    (∀ cd, ShouldAutostart (initEntry "f") cd = true) ∧
    parse "f" ["[Desktop Entry]", "OnlyShowIn=;"] =
      .ok { initEntry "f" with OnlyShowIn := some [] } ∧
    (∀ cd, ShouldAutostart { initEntry "f" with OnlyShowIn := some [] } cd = false) := by
  refine ⟨by rfl, rfl, ?_, by rfl, ?_⟩
  · intro cd; simp [ShouldAutostart, initEntry]
  · intro cd; simp [ShouldAutostart, initEntry, isOneOfIn, listContains]

set_option maxHeartbeats 1600000 in
/-- C1: `ShouldAutostart` agrees with the spec's rule cascade (checked in
the spec's order, first match deciding), and its result is characterized by
unordered set-membership: true exactly when the entry is not hidden, the
GNOME-disable flag does not apply, a non-nil `OnlyShowIn` overlaps the
current desktop, and a non-nil `NotShownIn` does not. -/
theorem claim_C1 (de : DesktopEntry) (cd : List String) :
    ShouldAutostart de cd = shouldAutostartSpec de cd ∧
    (ShouldAutostart de cd = true ↔
      (de.Hidden = false ∧ (de.GnomeAutostartEnabled = true ∨ "GNOME" ∉ cd) ∧
       (∀ l, de.OnlyShowIn = some l → ∃ x ∈ cd, x ∈ l) ∧
       (∀ l, de.NotShownIn = some l → ∀ x ∈ cd, x ∉ l))) := by
  obtain ⟨fn, nm, ic, ex, hid, osi, nsi, gae, acts⟩ := de
  constructor
  · unfold ShouldAutostart shouldAutostartSpec
    dsimp only
    cases hid <;> cases gae <;> rcases osi with _ | l <;> rcases nsi with _ | l2 <;>
      split_ifs <;>
      simp_all [isOneOfIn, listContains, List.any_eq_true, List.elem_iff] <;>
      tauto
  · unfold ShouldAutostart
    dsimp only
    cases hid <;> cases gae <;> rcases osi with _ | l <;> rcases nsi with _ | l2 <;>
      split_ifs <;>
      simp_all [isOneOfIn, listContains, List.any_eq_true, List.elem_iff]

/-- C3: an input stream with two lines that trim to `[Desktop Entry]`
always fails to parse, whatever surrounds them; and when the lines up to
and including the first occurrence parse cleanly, the error is precisely
the "multiple groups" structural error raised at the second occurrence. -/
theorem claim_C3 (filename : String) (pre mid post : List String) (l1 l2 : String)
    (h1 : trimSpaceL l1.data = "[Desktop Entry]".data)
    (h2 : trimSpaceL l2.data = "[Desktop Entry]".data) :
    (∃ e, parse filename (pre ++ l1 :: mid ++ l2 :: post) = .error e) ∧
    (∀ st, runLines (initState filename) (pre ++ l1 :: mid) = .ok st →
      parse filename (pre ++ l1 :: mid ++ l2 :: post) = .error .multipleDesktopEntryGroups) := by
  have hseen : ∀ st, runLines (initState filename) (pre ++ l1 :: mid) = .ok st →
      st.seenDesktopEntryGroup = true := by
    intro st hst
    rw [show pre ++ l1 :: mid = (pre ++ [l1]) ++ mid from by simp, runLines_append] at hst
    cases hr : runLines (initState filename) (pre ++ [l1]) with
    | error e => rw [hr] at hst; cases hst
    | ok st1 =>
      rw [hr] at hst
      have h1seen : st1.seenDesktopEntryGroup = true := by
        rw [runLines_append] at hr
        cases hr0 : runLines (initState filename) pre with
        | error e => rw [hr0] at hr; cases hr
        | ok st0 =>
          rw [hr0] at hr
          simp only [runLines] at hr
          rw [processLine_de_header st0 l1 h1] at hr
          cases hs0 : st0.seenDesktopEntryGroup with
          | true => rw [hs0] at hr; simp at hr
          | false =>
            rw [hs0] at hr
            simp only [Bool.false_eq_true, if_false] at hr
            cases hr
            rfl
      exact runLines_seen_mono mid st1 st hst h1seen
  constructor
  · unfold parse
    rw [runLines_append]
    cases hr : runLines (initState filename) (pre ++ l1 :: mid) with
    | error e => exact ⟨e, rfl⟩
    | ok st' =>
      obtain ⟨e, he⟩ := runLines_after_seen l2 post h2 [] st' (hseen st' hr)
      simp only [List.nil_append] at he
      exact ⟨e, by simp only [he]⟩
  · intro st hst
    unfold parse
    rw [runLines_append, hst]
    simp only [runLines]
    rw [processLine_de_header st l2 h2, if_pos (hseen st hst)]

/-- Witness for C3: a concrete stream with two `[Desktop Entry]` lines and
a key line between them fails to parse. -/
theorem claim_C3_witness :
    ∃ e, parse "f" (["# c"] ++ "[Desktop Entry]" :: ["Name=x"] ++ "[Desktop Entry]" :: []) =
      .error e :=
  (claim_C3 "f" ["# c"] ["Name=x"] [] "[Desktop Entry]" "[Desktop Entry]"
    (by decide) (by decide)).1

lemma isPrefixOf_append_self (p r : List Char) : p.isPrefixOf (p ++ r) = true := by
  induction p with
  | nil => simp [List.isPrefixOf]
  | cons a as ih => simp [List.isPrefixOf, ih]

lemma singleton_isPrefixOf_cons (c a : Char) (t : List Char) :
    [c].isPrefixOf (a :: t) = (c == a) := by
  simp [List.isPrefixOf]

lemma actionHeader_cons (X : String) :
    ("[Desktop Action ".data ++ X.data ++ [']'] : List Char) =
      '[' :: ("Desktop Action ".data ++ X.data ++ [']']) := rfl

lemma processLine_action_header (st : ParseState) (l : String) (X : String)
    (h : trimSpaceL l.data = "[Desktop Action ".data ++ X.data ++ [']']) :
    processLine st l =
      if ¬ listContains st.actions X then .error (.unknownAction X)
      else if (lookupAction st.de.Actions X).isSome then
        .error (.multipleActionGroups ("[Desktop Action ".data ++ X.data ++ [']']))
      else .ok { st with
                 currentGroup := .desktopActionGroup X
                 de := { st.de with
                         Actions := some ((st.de.Actions.getD []) ++ [(X, ⟨"", "", ""⟩)]) } } := by
  have hc1 : ¬(("[Desktop Action ".data ++ X.data ++ [']'] : List Char) = []) := by
    rw [actionHeader_cons]; simp
  have hc2 : ¬(['#'].isPrefixOf ("[Desktop Action ".data ++ X.data ++ [']']) = true) := by
    rw [actionHeader_cons, singleton_isPrefixOf_cons]; decide
  have hc3 : ['['].isPrefixOf ("[Desktop Action ".data ++ X.data ++ [']']) = true := by
    rw [actionHeader_cons, singleton_isPrefixOf_cons]; decide
  have hc4 : ¬(("[Desktop Action ".data ++ X.data ++ [']'] : List Char) =
      "[Desktop Entry]".data) := by
    intro heq
    have hl := congrArg List.length heq
    simp [List.length_append] at hl
  have hc5 : "[Desktop Action ".data.isPrefixOf
      ("[Desktop Action ".data ++ X.data ++ [']']) = true := by
    rw [List.append_assoc]
    exact isPrefixOf_append_self _ _
  have hc6 : ("[Desktop Action ".data ++ X.data ++ [']'] : List Char).getLast? =
      some ']' := List.getLast?_concat _
  have hext : String.mk ((("[Desktop Action ".data ++ X.data ++ [']']).drop
      "[Desktop Action ".data.length).dropLast) = X := by
    rw [List.append_assoc, List.drop_left, List.dropLast_concat]
  simp only [processLine, h]
  rw [if_neg hc1, if_neg hc2, if_pos hc3, if_neg hc4, if_pos (by exact ⟨hc5, hc6⟩),
    hext]

lemma updateEntryField_gae (de : DesktopEntry) (key value : String) :
    (updateEntryField de key value).GnomeAutostartEnabled = de.GnomeAutostartEnabled ∨
    (key = "X-GNOME-Autostart-enabled" ∧
     (updateEntryField de key value).GnomeAutostartEnabled = (value == "true")) := by
  unfold updateEntryField
  split_ifs <;> simp_all

/-- C4: a line that trims to a `[Desktop Action X]` header aborts the
parse with an "unknown action" error exactly when `X` is missing from the
`Actions=` list accumulated from earlier lines (the loop state's `actions`);
in particular a stream that declares `Actions=` only after its action group
is rejected even though `X` is declared, while the conventional order
parses successfully. -/
theorem claim_C4 (st : ParseState) (l : String) (X : String)
    (h : trimSpaceL l.data = "[Desktop Action ".data ++ X.data ++ [']']) :
    (listContains st.actions X = false → processLine st l = .error (.unknownAction X)) ∧
    (listContains st.actions X = true →
      ∀ Y, processLine st l ≠ .error (.unknownAction Y)) ∧
    parse "f" ["[Desktop Entry]", "[Desktop Action a]", "Actions=a;"] =
      .error (.unknownAction "a") ∧
    parse "f" ["[Desktop Entry]", "Actions=a;", "[Desktop Action a]"] =
      .ok { Filename := "f", Name := "", Icon := "", Exec := "", Hidden := false,
            OnlyShowIn := none, NotShownIn := none, GnomeAutostartEnabled := true,
            Actions := some [("a", ⟨"", "", ""⟩)] } := by
  refine ⟨?_, ?_, by rfl, by rfl⟩
  · intro hc
    rw [processLine_action_header st l X h, if_pos (by simp [hc])]
  · intro hc Y
    rw [processLine_action_header st l X h, if_neg (by simp [hc])]
    cases hh : (lookupAction st.de.Actions X).isSome <;> simp [hh]

/-- Witness for C4: the concrete header `[Desktop Action a]` errors from
the initial state (no `Actions=` seen) and does not raise "unknown action"
once `a` has been declared. -/
theorem claim_C4_witness :
    processLine (initState "f") "[Desktop Action a]" = .error (.unknownAction "a") ∧
    processLine { initState "f" with actions := ["a"] } "[Desktop Action a]" ≠
      .error (.unknownAction "b") :=
  ⟨(claim_C4 (initState "f") "[Desktop Action a]" "a" (by decide)).1 rfl,
   (claim_C4 { initState "f" with actions := ["a"] } "[Desktop Action a]" "a"
     (by decide)).2.1 rfl "b"⟩

/-- C5: `GnomeAutostartEnabled` is initialized to `true` before the parse
loop, a processed line can only change it when it is a key line of the
`[Desktop Entry]` group whose trimmed key is `X-GNOME-Autostart-enabled`
(in which case it becomes the test that the trimmed value is exactly
`"true"`), and concretely: absence of the key leaves `true`, value `true`
gives `true`, values `True` and the empty value give `false`. -/
theorem claim_C5 :
    (∀ f, (initState f).de.GnomeAutostartEnabled = true) ∧
    (∀ st l st', processLine st l = .ok st' →
      st'.de.GnomeAutostartEnabled = st.de.GnomeAutostartEnabled ∨
      (st.currentGroup = .desktopEntryGroup ∧
       ∃ k v, splitEq (trimSpaceL l.data) = some (k, v) ∧
         String.mk (trimRightCutset k) = "X-GNOME-Autostart-enabled" ∧
         st'.de.GnomeAutostartEnabled = (String.mk (trimLeftCutset v) == "true"))) ∧
    (parse "f" ["[Desktop Entry]", "Name=x"]).map
      (fun de => de.GnomeAutostartEnabled) = .ok true ∧
    (parse "f" ["[Desktop Entry]", "X-GNOME-Autostart-enabled=true"]).map
      (fun de => de.GnomeAutostartEnabled) = .ok true ∧
    (parse "f" ["[Desktop Entry]", "X-GNOME-Autostart-enabled=True"]).map
      (fun de => de.GnomeAutostartEnabled) = .ok false ∧
    (parse "f" ["[Desktop Entry]", "X-GNOME-Autostart-enabled="]).map
      (fun de => de.GnomeAutostartEnabled) = .ok false := by
  refine ⟨fun f => rfl, ?_, by rfl, by rfl, by rfl, by rfl⟩
  intro st l st' hp
  simp only [processLine] at hp
  split at hp
  · cases hp; exact Or.inl rfl
  · split at hp
    · cases hp; exact Or.inl rfl
    · split at hp
      · split at hp
        · split at hp
          · cases hp
          · cases hp; exact Or.inl rfl
        · split at hp
          · split at hp
            · cases hp
            · split at hp
              · cases hp
              · cases hp; exact Or.inl rfl
          · cases hp; exact Or.inl rfl
      · split at hp
        · cases hp
        · rename_i k v heq
          split at hp
          · rename_i hcg
            split at hp
            · cases hp; exact Or.inl rfl
            · cases hp
              rcases updateEntryField_gae st.de (String.mk (trimRightCutset k))
                  (String.mk (trimLeftCutset v)) with hl | ⟨hk, hv⟩
              · exact Or.inl hl
              · exact Or.inr ⟨hcg, k, v, heq, hk, hv⟩
          · cases hp; exact Or.inl rfl
          · cases hp; exact Or.inl rfl

/-- Witness for C5: a comment line processed from the initial state leaves
the state unchanged, so the per-line conclusion holds there. -/
theorem claim_C5_witness :
    (initState "f").de.GnomeAutostartEnabled = true ∧
    ((initState "f").de.GnomeAutostartEnabled = (initState "f").de.GnomeAutostartEnabled ∨
      ((initState "f").currentGroup = .desktopEntryGroup ∧
       ∃ k v, splitEq (trimSpaceL ("# c" : String).data) = some (k, v) ∧
         String.mk (trimRightCutset k) = "X-GNOME-Autostart-enabled" ∧
         (initState "f").de.GnomeAutostartEnabled = (String.mk (trimLeftCutset v) == "true"))) :=
  ⟨claim_C5.1 "f", claim_C5.2.1 (initState "f") "# c" (initState "f") rfl⟩

lemma splitEq_isSome_of_mem (cs : List Char) (h : '=' ∈ cs) :
    ∃ k v, splitEq cs = some (k, v) := by
  induction cs with
  | nil => cases h
  | cons c cs ih =>
    by_cases hc : c = '='
    · exact ⟨[], cs, by simp [splitEq, hc]⟩
    · have h' : '=' ∈ cs := by
        rcases List.mem_cons.mp h with h1 | h1
        · exact absurd h1.symm hc
        · exact h1
      obtain ⟨k, v, hkv⟩ := ih h'
      exact ⟨c :: k, v, by simp [splitEq, hc, hkv]⟩

lemma splitEq_eq_none (cs : List Char) (h : '=' ∉ cs) : splitEq cs = none := by
  induction cs with
  | nil => rfl
  | cons c cs ih =>
    simp only [List.mem_cons, not_or] at h
    simp [splitEq, Ne.symm h.1, ih h.2]

lemma singleton_isPrefixOf_iff (c : Char) (cs : List Char) :
    [c].isPrefixOf cs = true ↔ ∃ t, cs = c :: t := by
  cases cs with
  | nil => simp [List.isPrefixOf]
  | cons a t =>
    rw [singleton_isPrefixOf_cons]
    constructor
    · intro hb
      exact ⟨t, by rw [eq_of_beq hb]⟩
    · rintro ⟨t', ht'⟩
      injection ht' with ha ht
      rw [ha]
      exact beq_self_eq_true c

lemma processLine_badlyFormed (st : ParseState) (l : String)
    (h1 : trimSpaceL l.data ≠ [])
    (h2 : ¬ ['#'].isPrefixOf (trimSpaceL l.data) = true)
    (h3 : ¬ ['['].isPrefixOf (trimSpaceL l.data) = true)
    (h4 : '=' ∉ trimSpaceL l.data) :
    processLine st l = .error .badlyFormed := by
  simp only [processLine]
  rw [if_neg h1, if_neg h2, if_neg h3, splitEq_eq_none _ h4]

lemma processLine_skipped_keyline (st : ParseState) (l : String)
    (hu : st.currentGroup = .unknownGroup)
    (h3 : ¬ ['['].isPrefixOf (trimSpaceL l.data) = true)
    (h4 : '=' ∈ trimSpaceL l.data) :
    processLine st l = .ok st := by
  have h1 : trimSpaceL l.data ≠ [] := by
    intro he
    rw [he] at h4
    cases h4
  by_cases h2 : ['#'].isPrefixOf (trimSpaceL l.data) = true
  · simp only [processLine]
    rw [if_neg h1, if_pos h2]
  · obtain ⟨k, v, hkv⟩ := splitEq_isSome_of_mem _ h4
    simp only [processLine]
    rw [if_neg h1, if_neg h2, if_neg h3, hkv, hu]

lemma processLine_inert (st : ParseState) (l : String)
    (hu : st.currentGroup = .unknownGroup) (h : inertLine l) :
    processLine st l = .ok st := by
  rcases h with h1 | h2 | ⟨h3a, h3b, h3c⟩ | ⟨h4a, h4b⟩
  · simp only [processLine]
    rw [if_pos h1]
  · have h1 : trimSpaceL l.data ≠ [] := by
      intro he
      rw [he] at h2
      simp [List.isPrefixOf] at h2
    simp only [processLine]
    rw [if_neg h1, if_pos h2]
  · obtain ⟨t, ht⟩ := (singleton_isPrefixOf_iff '[' (trimSpaceL l.data)).mp h3a
    have hst : { st with currentGroup := GroupState.unknownGroup } = st := by
      cases st
      simp_all
    simp only [processLine]
    rw [if_neg (by rw [ht]; simp), if_neg (by rw [ht, singleton_isPrefixOf_cons]; decide),
      if_pos h3a, if_neg h3b, if_neg h3c, hst]
  · exact processLine_skipped_keyline st l hu h4a h4b

lemma runLines_inert (filename : String) (lines : List String)
    (h : ∀ l ∈ lines, inertLine l) :
    runLines (initState filename) lines = .ok (initState filename) := by
  induction lines with
  | nil => rfl
  | cons l ls ih =>
    simp only [runLines, processLine_inert (initState filename) l rfl (h l (by simp))]
    exact ih (fun x hx => h x (by simp [hx]))

/-- C8 (amended): a stream with no `[Desktop Entry]` header, no header of
the `[Desktop Action X]` form, and whose non-blank, non-comment,
non-header lines all contain `=` parses successfully into the zero-valued
entry (`Name`, `Icon`, `Exec` empty; `Hidden` false; `OnlyShowIn`,
`NotShownIn`, `Actions` nil; `GnomeAutostartEnabled` true); no check that
a `[Desktop Entry]` group was seen is performed. -/
theorem claim_C8 (filename : String) (lines : List String)
    (h : ∀ l ∈ lines, inertLine l) :
    parse filename lines = .ok (initEntry filename) := by
  unfold parse
  rw [runLines_inert filename lines h]
  rfl

/-- Counterexample to C8 as stated: the stream `["[Desktop Action foo]"]`
has no `[Desktop Entry]` header and no non-header line at all, yet parse
fails instead of succeeding. -/
theorem claim_C8_counterexample :
    parse "f" ["[Desktop Action foo]"] = .error (.unknownAction "foo") := rfl

/-- Witness for C8: a concrete stream of blank, comment, foreign-group and
key lines parses to the zero-valued entry. -/
theorem claim_C8_witness :
    parse "f" ["# c", "", "[Other]", "Key=val", "X=1"] = .ok (initEntry "f") :=
  claim_C8 "f" ["# c", "", "[Other]", "Key=val", "X=1"] (by decide)

/-- C10: a line that trims to something non-blank that is not a comment,
not a group header, and contains no `=` makes `processLine` fail with the
"badly formed" error in every loop state, and aborts any parse whose
earlier lines succeeded, wherever it occurs; while a key line containing
`=` outside any recognized group is silently discarded. -/
theorem claim_C10 :
    (∀ (st : ParseState) (l : String), trimSpaceL l.data ≠ [] →
      ¬ ['#'].isPrefixOf (trimSpaceL l.data) = true →
      ¬ ['['].isPrefixOf (trimSpaceL l.data) = true →
      '=' ∉ trimSpaceL l.data →
      processLine st l = .error .badlyFormed) ∧
    (∀ (filename : String) (pre post : List String) (l : String) (st : ParseState),
      runLines (initState filename) pre = .ok st →
      trimSpaceL l.data ≠ [] →
      ¬ ['#'].isPrefixOf (trimSpaceL l.data) = true →
      ¬ ['['].isPrefixOf (trimSpaceL l.data) = true →
      '=' ∉ trimSpaceL l.data →
      parse filename (pre ++ l :: post) = .error .badlyFormed) ∧
    (∀ (st : ParseState) (l : String), st.currentGroup = .unknownGroup →
      ¬ ['['].isPrefixOf (trimSpaceL l.data) = true →
      '=' ∈ trimSpaceL l.data →
      processLine st l = .ok st) := by
  refine ⟨fun st l h1 h2 h3 h4 => processLine_badlyFormed st l h1 h2 h3 h4, ?_,
    fun st l hu h3 h4 => processLine_skipped_keyline st l hu h3 h4⟩
  intro filename pre post l st hpre h1 h2 h3 h4
  unfold parse
  rw [runLines_append, hpre]
  simp only [runLines]
  rw [processLine_badlyFormed st l h1 h2 h3 h4]

/-- Witness for C10: the line `junk` aborts from the initial state and
after a skipped group, while `a=b` is discarded inside a skipped group. -/
theorem claim_C10_witness :
    processLine (initState "f") "junk" = .error .badlyFormed ∧
    parse "f" (["[Other]"] ++ "junk" :: []) = .error .badlyFormed ∧
    processLine (initState "f") "a=b" = .ok (initState "f") :=
  ⟨claim_C10.1 (initState "f") "junk" (by decide) (by decide) (by decide) (by decide),
   claim_C10.2.1 "f" ["[Other]"] [] "junk" (initState "f") rfl
     (by decide) (by decide) (by decide) (by decide),
   claim_C10.2.2 (initState "f") "a=b" rfl (by decide) (by decide)⟩

end DesktopEntrySpec
